import Mathlib

/-!
# Terminal audio player: transport state and session loop

A shallow embedding of `main.go`: the `Player` transport operations
(`LoadFile`, `Play`, `Pause`, `Stop`, `Seek`, `GetPosition`, `SetVolume`),
the key dispatch of `PlayerUI.handleKeyEvent`, the input loop
`PlayerUI.handleEvents` and the progress bar drawn by `PlayerUI.render`.

Conventions of the embedding.

* Go `int` and `time.Duration` are 64-bit; they are `Int` here, wrapped with
  `wrapInt64` where the source multiplies.
* Go `float64` is `F64`: a finite value is a rational, next to `+Inf`,
  `-Inf` and `NaN`. Every arithmetic operation and every conversion from an
  integer rounds its exact result to the nearest float64 (53-bit mantissa,
  ties to even, least exponent -1074, overflow to an infinity) with
  `F64.round`. Signed zeros are not distinguished.
* A float-to-int conversion of a value that `int64` cannot hold is
  implementation-dependent in Go; its result is the parameter `cvt`.
* A nil pointer is `none`; a run-time panic is the result `Except.error` of
  an operation returning `Except Panic`.
-/

namespace AudioPlayer

/-! ## float64 and int64 -/

/-- Go `float64` values: a rational for a finite value, and the three special
values. The operations below only produce rationals that are float64 values. -/
inductive F64 where
  | fin (q : ℚ)
  | posInf
  | negInf
  | nan
  deriving DecidableEq

/-- Rounding of a rational to the nearest integer, ties to the even one. -/
def roundHalfEven (x : ℚ) : Int :=
  if x - ⌊x⌋ < 1 / 2 then ⌊x⌋
  else if 1 / 2 < x - ⌊x⌋ then ⌊x⌋ + 1
  else if ⌊x⌋ % 2 = 0 then ⌊x⌋ else ⌊x⌋ + 1

/-- Exponent of the last mantissa bit of a float64 near `q`: 52 below the
binary exponent of `q`, and at least -1074. -/
def ulpExp (q : ℚ) : Int := max (Int.log 2 |q| - 52) (-1074)

/-- IEEE 754 rounding of an exact result to float64: the mantissa is rounded
to nearest, ties to even; a result of magnitude `2^1024` or more is an
infinity. -/
def F64.round (q : ℚ) : F64 :=
  let r : ℚ := roundHalfEven (q / 2 ^ ulpExp q) * 2 ^ ulpExp q
  if 2 ^ 1024 ≤ r then F64.posInf
  else if r ≤ -2 ^ 1024 then F64.negInf
  else F64.fin r

namespace F64

/-- Conversion `float64(n)` of an integer. -/
def ofInt (n : Int) : F64 := round n

/-- Negation. -/
def neg : F64 → F64
  | fin q => fin (-q)
  | posInf => negInf
  | negInf => posInf
  | nan => nan

/-- Float addition `x + y`. -/
def add : F64 → F64 → F64
  | fin a, fin b => round (a + b)
  | nan, _ => nan
  | _, nan => nan
  | posInf, negInf => nan
  | negInf, posInf => nan
  | posInf, _ => posInf
  | negInf, _ => negInf
  | fin _, posInf => posInf
  | fin _, negInf => negInf

/-- Float subtraction `x - y`. -/
def sub (x y : F64) : F64 := add x (neg y)

/-- Float division `x / y`. Dividing by zero does not panic in Go: `0/0` is
`NaN` and `a/0` is an infinity with the sign of `a`. -/
def div : F64 → F64 → F64
  | fin a, fin b =>
      if b = 0 then (if a = 0 then nan else if 0 < a then posInf else negInf)
      else round (a / b)
  | nan, _ => nan
  | _, nan => nan
  | fin _, posInf => fin 0
  | fin _, negInf => fin 0
  | posInf, fin b => if 0 ≤ b then posInf else negInf
  | negInf, fin b => if 0 ≤ b then negInf else posInf
  | posInf, posInf => nan
  | posInf, negInf => nan
  | negInf, posInf => nan
  | negInf, negInf => nan

/-- Float comparison `x < y`; false whenever an operand is `NaN`. -/
def lt : F64 → F64 → Bool
  | fin a, fin b => decide (a < b)
  | nan, _ => false
  | _, nan => false
  | posInf, _ => false
  | _, negInf => false
  | negInf, _ => true
  | fin _, posInf => true

end F64

/-- Truncation of a rational toward zero. -/
def truncQ (q : ℚ) : Int := q.num.tdiv q.den

/-- Two's-complement wrap of an integer into the `int64` range. -/
def wrapInt64 (n : Int) : Int := (n + 2 ^ 63) % 2 ^ 64 - 2 ^ 63

/-- Go conversion `int(x)` / `int64(x)` of a float: the fraction is discarded;
when the value is not representable the result is implementation-dependent
and is taken from `cvt`. -/
def F64.toInt (cvt : F64 → Int) : F64 → Int
  | F64.fin q =>
      if -(2 ^ 63) ≤ truncQ q ∧ truncQ q < 2 ^ 63 then truncQ q
      else wrapInt64 (cvt (F64.fin q))
  | x => wrapInt64 (cvt x)

/-! ## time.Duration and beep.SampleRate -/

/-- The constant `time.Second`, in nanoseconds. -/
def Second : Int := 1000000000

/-- `beep.SampleRate.N`: `int(d * time.Duration(sr) / time.Second)`, in
`int64` arithmetic: the product wraps, the division truncates. -/
def SampleRate.N (sr : Int) (d : Int) : Int :=
  (wrapInt64 (d * sr)).tdiv Second

/-! ## External collaborators: decoder stream, format, engine control -/

/-- Modelled from the spec: the external Decoder's seekable stream
(`beep.StreamSeekCloser`), whose implementation is not part of this
repository. `len` is `Len()`, `pos` is `Position()`. -/
structure Stream where
  len : Int
  pos : Int
  closed : Bool
  deriving DecidableEq

/-- Modelled from the spec: `Seek(frameOffset)` of the external Decoder moves
the cursor to the offset. The contract grants nothing after `Close()`: on a
closed stream the seek fails, and an offset outside `[0, Len()]` is rejected;
in both cases the error is returned (the callers in `main.go` ignore it) and
the cursor stays. -/
def Stream.Seek (s : Stream) (n : Int) : Stream :=
  if s.closed then s
  else if 0 ≤ n ∧ n ≤ s.len then { s with pos := n } else s

/-- Modelled from the spec: `Close()` of the external Decoder. -/
def Stream.Close (s : Stream) : Stream := { s with closed := true }

/-- The type `beep.Format`. -/
structure Format where
  SampleRate : Int
  NumChannels : Int
  Precision : Int
  deriving DecidableEq

/-- The type `beep.Ctrl`. Its `Streamer` field always aliases the `streamer`
field of the `Player` that owns it, so only `Paused` is kept. -/
structure Ctrl where
  Paused : Bool
  deriving DecidableEq

/-! ## Player -/

/-- The struct `Player`. -/
structure Player where
  ctrl : Option Ctrl
  format : Format
  streamer : Option Stream
  currentFile : String
  isPlaying : Bool
  volume : F64
  position : F64
  duration : F64
  deriving DecidableEq

/-- The function `NewPlayer`: every field zero except `volume: 1.0`. -/
def NewPlayer : Player :=
  { ctrl := none
    format := { SampleRate := 0, NumChannels := 0, Precision := 0 }
    streamer := none
    currentFile := ""
    isPlaying := false
    volume := F64.fin 1
    position := F64.fin 0
    duration := F64.fin 0 }

/-- Backward scan of `filepath.Ext` over the reversed path: stop at a path
separator, return the suffix from the first dot met. -/
def Ext.scan : List Char → List Char → List Char
  | [], _ => []
  | c :: rest, acc =>
      if c = '/' then []
      else if c = '.' then c :: acc
      else Ext.scan rest (c :: acc)

/-- `filepath.Ext`: the suffix beginning at the final dot of the final path
element, empty if there is none. The path separator is `/`. -/
def Ext (path : String) : String := ⟨Ext.scan path.data.reverse []⟩

/-- `strings.ToLower`, on the ASCII letters; no other character lower-cases to
a character of `.mp3` or `.wav`, the only strings the result is compared with. -/
def ToLower (s : String) : String := ⟨s.data.map Char.toLower⟩

/-- What the outside world answers during one `LoadFile` call. -/
structure Env where
  osOpen : Bool
  mp3Decode : Option (Stream × Format)
  wavDecode : Option (Stream × Format)
  speakerInit : Bool

/-- The errors `LoadFile` returns. -/
inductive LoadError where
  | openFailed
  | unsupportedFormat (ext : String)
  | decodeFailed
  | speakerInitFailed
  deriving DecidableEq

/-- Lines 35-37 of `LoadFile`: a stream that is already loaded is closed (and
stays referenced). -/
def Player.closeStreamer (p : Player) : Player :=
  match p.streamer with
  | some s => { p with streamer := some s.Close }
  | none => p

/-- Lines 58-63 of `LoadFile`: the field assignments of a successful load. -/
def Player.install (p : Player) (path : String) (streamer : Stream) (format : Format) :
    Player :=
  { p with
    ctrl := some { Paused := true }
    streamer := some streamer
    format := format
    currentFile := path
    isPlaying := false
    duration := F64.div (F64.ofInt streamer.len) (F64.ofInt format.SampleRate) }

/-- The method `Player.LoadFile`; returns the error (`none` for `nil`) and the
player as the call leaves it. -/
def Player.LoadFile (env : Env) (path : String) (p : Player) :
    Option LoadError × Player :=
  let p1 := p.closeStreamer
  if env.osOpen = false then (some LoadError.openFailed, p1)
  else
    let ext := ToLower (Ext path)
    let decoded : Except LoadError (Option (Stream × Format)) :=
      if ext = ".mp3" then Except.ok env.mp3Decode
      else if ext = ".wav" then Except.ok env.wavDecode
      else Except.error (LoadError.unsupportedFormat (Ext path))
    match decoded with
    | Except.error e => (some e, p1)
    | Except.ok none => (some LoadError.decodeFailed, p1)
    | Except.ok (some (streamer, format)) =>
        if env.speakerInit = false then (some LoadError.speakerInitFailed, p1)
        else (none, p1.install path streamer format)

/-- Run-time panics of the modelled code. -/
inductive Panic where
  | nilDereference
  | closeOfClosedChannel
  deriving DecidableEq

/-- The method `Player.Play`. -/
def Player.Play (p : Player) : Player :=
  match p.ctrl with
  | none => p
  | some c => { p with ctrl := some { c with Paused := false }, isPlaying := true }

/-- The method `Player.Pause`. -/
def Player.Pause (p : Player) : Player :=
  match p.ctrl with
  | none => p
  | some c => { p with ctrl := some { c with Paused := true }, isPlaying := false }

/-- The method `Player.Stop`: guarded by `streamer`, it writes through `ctrl`. -/
def Player.Stop (p : Player) : Except Panic Player :=
  match p.streamer with
  | none => Except.ok p
  | some s =>
      match p.ctrl with
      | none => Except.error Panic.nilDereference
      | some c =>
          Except.ok
            { p with
              ctrl := some { c with Paused := true }
              isPlaying := false
              streamer := some (s.Seek 0) }

/-- The frame offset `Player.Seek` computes for the stream `s` and hands to
`s.Seek`. -/
def Player.seekFrame (cvt : F64 → Int) (p : Player) (s : Stream) (seconds : F64) : Int :=
  let position :=
    SampleRate.N p.format.SampleRate (wrapInt64 (F64.toInt cvt seconds * Second))
  let position := if position < 0 then 0 else position
  if position > s.len then s.len - 1 else position

/-- The method `Player.Seek`. -/
def Player.Seek (cvt : F64 → Int) (p : Player) (seconds : F64) : Player :=
  match p.streamer with
  | none => p
  | some s => { p with streamer := some (s.Seek (p.seekFrame cvt s seconds)) }

/-- The method `Player.GetPosition`. -/
def Player.GetPosition (p : Player) : F64 :=
  match p.streamer with
  | none => F64.fin 0
  | some s => F64.div (F64.ofInt s.pos) (F64.ofInt p.format.SampleRate)

/-- The method `Player.GetDuration`. -/
def Player.GetDuration (p : Player) : F64 := p.duration

/-- The method `Player.SetVolume`. -/
def Player.SetVolume (p : Player) (volume : F64) : Player :=
  let volume := if F64.lt volume (F64.fin 0) then F64.fin 0 else volume
  let volume := if F64.lt (F64.fin 1) volume then F64.fin 1 else volume
  { p with volume := volume }

/-- Modelled from the spec: the Output Engine's callback, which is not part of
this repository, pulls `n` frames through the `Ctrl` when it is not paused,
advancing the stream cursor up to the end of the stream; a closed stream
delivers no frame. -/
def Player.engineAdvance (p : Player) (n : Nat) : Player :=
  match p.ctrl, p.streamer with
  | some c, some s =>
      if c.Paused ∨ s.closed then p
      else { p with streamer := some { s with pos := min (s.pos + n) s.len } }
  | _, _ => p

/-! ## PlayerUI -/

/-- The keys `handleKeyEvent` distinguishes (`tcell.EventKey`). -/
inductive Key where
  | Escape
  | CtrlC
  | Rune (r : Char)
  | Left
  | Right
  | Other
  deriving DecidableEq

/-- The events `screen.PollEvent` delivers. -/
inductive Event where
  | key (k : Key)
  | resize
  | other
  deriving DecidableEq

/-- The struct `PlayerUI`; `quitClosed` is the state of the channel `quit`.
The screen is write-only for the modelled code and is left out. -/
structure PlayerUI where
  player : Player
  quitClosed : Bool
  deriving DecidableEq

/-- The builtin `close(ui.quit)`: closing a closed channel panics. -/
def PlayerUI.closeQuit (ui : PlayerUI) : Except Panic PlayerUI :=
  if ui.quitClosed then Except.error Panic.closeOfClosedChannel
  else Except.ok { ui with quitClosed := true }

/-- The method `PlayerUI.handleKeyEvent`. -/
def PlayerUI.handleKeyEvent (cvt : F64 → Int) (ui : PlayerUI) (ev : Key) :
    Except Panic PlayerUI :=
  match ev with
  | Key.Escape => ui.closeQuit
  | Key.CtrlC => ui.closeQuit
  | Key.Rune r =>
      if r = ' ' then
        if ui.player.isPlaying then Except.ok { ui with player := ui.player.Pause }
        else Except.ok { ui with player := ui.player.Play }
      else if r = 's' then
        match ui.player.Stop with
        | Except.ok p => Except.ok { ui with player := p }
        | Except.error e => Except.error e
      else if r = '+' then
        Except.ok { ui with
          player := ui.player.SetVolume (F64.add ui.player.volume (F64.round (1 / 10))) }
      else if r = '-' then
        Except.ok { ui with
          player := ui.player.SetVolume (F64.sub ui.player.volume (F64.round (1 / 10))) }
      else Except.ok ui
  | Key.Left =>
      Except.ok { ui with
        player := ui.player.Seek cvt (F64.sub ui.player.GetPosition (F64.fin 5)) }
  | Key.Right =>
      Except.ok { ui with
        player := ui.player.Seek cvt (F64.add ui.player.GetPosition (F64.fin 5)) }
  | Key.Other => Except.ok ui

/-- The method `PlayerUI.handleEvents`, run on the events `PollEvent` delivers
one after the other. Each round polls an event, returns if `quit` is closed,
and dispatches the event otherwise. When the events are used up the task is
blocked in `PollEvent` and the state is returned as it stands. -/
def PlayerUI.handleEvents (cvt : F64 → Int) : List Event → PlayerUI → Except Panic PlayerUI
  | [], ui => Except.ok ui
  | ev :: rest, ui =>
      if ui.quitClosed then Except.ok ui
      else
        match ev with
        | Event.key k =>
            match ui.handleKeyEvent cvt k with
            | Except.ok ui1 => PlayerUI.handleEvents cvt rest ui1
            | Except.error e => Except.error e
        | Event.resize => PlayerUI.handleEvents cvt rest ui
        | Event.other => PlayerUI.handleEvents cvt rest ui

/-- The function `playbackStatus`. -/
def playbackStatus (isPlaying : Bool) : String :=
  if isPlaying then "Playing" else "Paused"

/-- A decoded 10-second mono stream of 441000 frames. -/
def tenSecondStream : Stream := { len := 441000, pos := 0, closed := false }

/-- The format of a 44100 Hz mono stream. -/
def cdFormat : Format := { SampleRate := 44100, NumChannels := 1, Precision := 2 }

/-- An outside world in which `sample.mp3` opens and decodes to the 10-second
stream. -/
def tenSecondEnv : Env :=
  { osOpen := true
    mp3Decode := some (tenSecondStream, cdFormat)
    wavDecode := none
    speakerInit := true }

/-- The player of `main` after `LoadFile("sample.mp3")`. -/
def tenSecondPlayer : Player := (NewPlayer.LoadFile tenSecondEnv "sample.mp3").2

/-- The same player after `Play` and three seconds of playback. -/
def playingPlayer : Player := tenSecondPlayer.Play.engineAdvance 132300

/-- The playing player after a `LoadFile` that fails on the extension: the
stream is closed and still referenced. -/
def reloadedPlayer : Player := (playingPlayer.LoadFile tenSecondEnv "next.flac").2

/-- A platform whose out-of-range float conversions give `0`. -/
def cvtZero : F64 → Int := fun _ => 0

/-- Contract of the external decoders: a decoded stream has its cursor inside
`[0, Len()]` and a positive sample rate. -/
def Env.wf (env : Env) : Prop :=
  (∀ s f, env.mp3Decode = some (s, f) → 0 ≤ s.pos ∧ s.pos ≤ s.len ∧ 0 < f.SampleRate) ∧
  (∀ s f, env.wavDecode = some (s, f) → 0 ≤ s.pos ∧ s.pos ≤ s.len ∧ 0 < f.SampleRate)

/-- States of the `Player` reachable from `NewPlayer` through its operations,
key events and the engine callback. `dec` restricts what the outside world may
answer to `LoadFile`. -/
inductive Reachable (dec : Env → Prop) (cvt : F64 → Int) : Player → Prop
  | newPlayer : Reachable dec cvt NewPlayer
  | loadFile {p : Player} (env : Env) (path : String) :
      Reachable dec cvt p → dec env → Reachable dec cvt (p.LoadFile env path).2
  | play {p : Player} : Reachable dec cvt p → Reachable dec cvt p.Play
  | pause {p : Player} : Reachable dec cvt p → Reachable dec cvt p.Pause
  | stop {p q : Player} : Reachable dec cvt p → p.Stop = Except.ok q → Reachable dec cvt q
  | seek {p : Player} (seconds : F64) :
      Reachable dec cvt p → Reachable dec cvt (p.Seek cvt seconds)
  | setVolume {p : Player} (v : ℚ) :
      Reachable dec cvt p → Reachable dec cvt (p.SetVolume (F64.fin v))
  | keyEvent {p : Player} (k : Key) (closed : Bool) {ui : PlayerUI} :
      Reachable dec cvt p →
      PlayerUI.handleKeyEvent cvt { player := p, quitClosed := closed } k = Except.ok ui →
      Reachable dec cvt ui.player
  | engine {p : Player} (n : Nat) :
      Reachable dec cvt p → Reachable dec cvt (p.engineAdvance n)

/-- The invariant of the transport state. -/
structure Player.Inv (p : Player) : Prop where
  nil_iff : p.ctrl = none ↔ p.streamer = none
  status : ∀ c, p.ctrl = some c → p.isPlaying = !c.Paused
  idle : p.ctrl = none → p.isPlaying = false
  vol : ∃ q : ℚ, p.volume = F64.fin q ∧ 0 ≤ q ∧ q ≤ 1

/-- The loaded stream honours the decoder contract. -/
def Player.Wf (p : Player) : Prop :=
  ∀ s, p.streamer = some s → 0 ≤ s.pos ∧ s.pos ≤ s.len ∧ 0 < p.format.SampleRate


/-! ## Lemmas on float64 rounding -/

theorem roundHalfEven_intCast (n : Int) : roundHalfEven (n : ℚ) = n := by
  simp [roundHalfEven]

theorem le_roundHalfEven {x : ℚ} {K : Int} (h : (K : ℚ) ≤ x) : K ≤ roundHalfEven x := by
  have hf : K ≤ ⌊x⌋ := Int.le_floor.mpr h
  unfold roundHalfEven
  split_ifs <;> omega

theorem roundHalfEven_eq_of_near {x : ℚ} {m : Int} (h : |x - m| < 1 / 2) :
    roundHalfEven x = m := by
  rw [abs_lt] at h
  obtain ⟨h1, h2⟩ := h
  by_cases hx : (m : ℚ) ≤ x
  · have hf : ⌊x⌋ = m := by
      rw [Int.floor_eq_iff]
      exact ⟨hx, by linarith⟩
    unfold roundHalfEven
    rw [hf, if_pos (by linarith)]
  · have hf : ⌊x⌋ = m - 1 := by
      rw [Int.floor_eq_iff]
      push_cast
      exact ⟨by linarith, by linarith⟩
    unfold roundHalfEven
    rw [hf]
    push_cast
    rw [if_neg (by linarith), if_pos (by linarith)]
    omega

theorem round_ne_nan (q : ℚ) : F64.round q ≠ F64.nan := by
  unfold F64.round
  simp only
  split_ifs <;> simp

/-- The exponent of the last bit for a number in the binade `[2^k, 2^(k+1))`. -/
theorem ulpExp_eq {q : ℚ} {k : Int} (h1 : 2 ^ k ≤ |q|) (h2 : |q| < 2 ^ (k + 1))
    (hk : -1022 ≤ k) : ulpExp q = k - 52 := by
  have hpos : 0 < |q| := lt_of_lt_of_le (by positivity) h1
  have hlog : Int.log 2 |q| = k := by
    have ha : k ≤ Int.log 2 |q| :=
      (Int.zpow_le_iff_le_log (by norm_num) hpos).mp (by exact_mod_cast h1)
    have hb : Int.log 2 |q| < k + 1 :=
      (Int.lt_zpow_iff_log_lt (by norm_num) hpos).mp (by exact_mod_cast h2)
    omega
  unfold ulpExp
  rw [hlog]
  exact max_eq_left (by omega)

/-- Evaluation of `F64.round` from the binade `k` and the mantissa `m`. -/
theorem round_eq {q : ℚ} (k m : Int) (h1 : 2 ^ k ≤ |q|) (h2 : |q| < 2 ^ (k + 1))
    (hk : -1022 ≤ k) (hm : |q / 2 ^ (k - 52) - m| < 1 / 2)
    (hfin : |(m : ℚ) * 2 ^ (k - 52)| < 2 ^ 1024) :
    F64.round q = F64.fin (m * 2 ^ (k - 52)) := by
  rw [abs_lt] at hfin
  unfold F64.round
  simp only [ulpExp_eq h1 h2 hk, roundHalfEven_eq_of_near hm]
  rw [if_neg (by linarith), if_neg (by linarith)]

/-- Evaluation of `F64.round` at a positive number, with the result given. -/
theorem round_eq_pos {q : ℚ} (k m : Int) (r : ℚ) (h1 : 2 ^ k ≤ q) (h2 : q < 2 ^ (k + 1))
    (hk : -1022 ≤ k) (hm1 : (m : ℚ) - 1 / 2 < q / 2 ^ (k - 52))
    (hm2 : q / 2 ^ (k - 52) < m + 1 / 2) (hr : r = m * 2 ^ (k - 52))
    (hr0 : 0 ≤ r) (hr1 : r < 2 ^ 1024) : F64.round q = F64.fin r := by
  have hq0 : 0 ≤ q := le_trans (by positivity) h1
  rw [hr]
  apply round_eq k m
  · rwa [abs_of_nonneg hq0]
  · rwa [abs_of_nonneg hq0]
  · exact hk
  · rw [abs_lt]; constructor <;> linarith
  · rw [← hr, abs_of_nonneg hr0]; exact hr1

/-- The exponent of the last bit of a number below `2^53` is not positive. -/
theorem ulpExp_nonpos {q : ℚ} (h : |q| < 2 ^ 53) : ulpExp q ≤ 0 := by
  unfold ulpExp
  apply max_le _ (by norm_num)
  rcases eq_or_lt_of_le (abs_nonneg q) with h0 | hpos
  · rw [← h0, Int.log_zero_right]; norm_num
  · have : Int.log 2 |q| < 53 :=
      (Int.lt_zpow_iff_log_lt (by norm_num) hpos).mp (by exact_mod_cast h)
    omega

theorem zpow_nonpos_eq {e : Int} (he : e ≤ 0) : (2 : ℚ) ^ e = 1 / 2 ^ (-e).toNat := by
  have : e = -((-e).toNat : Int) := by omega
  conv_lhs => rw [this]
  rw [zpow_neg, zpow_natCast, one_div]

/-- Integers below `2^53` in magnitude are float64 values. -/
theorem round_intCast (n : Int) (h : |(n : ℚ)| < 2 ^ 53) : F64.round (n : ℚ) = F64.fin n := by
  have he := ulpExp_nonpos h
  have hz : (n : ℚ) / 2 ^ ulpExp (n : ℚ) = ((n * 2 ^ (-ulpExp (n : ℚ)).toNat : Int) : ℚ) := by
    rw [zpow_nonpos_eq he]
    push_cast
    field_simp
  have hr : ((n * 2 ^ (-ulpExp (n : ℚ)).toNat : Int) : ℚ) * 2 ^ ulpExp (n : ℚ) = n := by
    rw [zpow_nonpos_eq he]
    push_cast
    field_simp
  rw [abs_lt] at h
  unfold F64.round
  simp only [hz, roundHalfEven_intCast, hr]
  rw [if_neg (by linarith), if_neg (by linarith)]

/-- A whole number of at least 1 rounds to a positive float64 or to `+Inf`. -/
theorem round_pos_of_one_le {x : ℚ} (hx : 1 ≤ x) :
    F64.round x = F64.posInf ∨ ∃ r, F64.round x = F64.fin r ∧ 0 < r := by
  have hpos : 0 < |x| := by rw [abs_of_nonneg (by linarith)]; linarith
  have hpow : (0 : ℚ) < 2 ^ ulpExp x := by positivity
  have habs : |x| = x := abs_of_nonneg (by linarith)
  have hle : (2 : ℚ) ^ ulpExp x ≤ x := by
    unfold ulpExp
    rw [habs]
    rcases max_cases (Int.log 2 x - 52) (-1074) with ⟨h, -⟩ | ⟨h, -⟩
    · rw [h]
      have h1 : (2 : ℚ) ^ (Int.log 2 x - 52) ≤ 2 ^ Int.log 2 x :=
        zpow_le_zpow_right₀ (by norm_num) (by omega)
      have hx0 : (0 : ℚ) < x := by linarith
      have h2 : (2 : ℚ) ^ Int.log 2 x ≤ x := by
        have := Int.zpow_log_le_self (b := 2) (r := x) (by norm_num) hx0
        exact_mod_cast this
      linarith
    · rw [h]
      have : (2 : ℚ) ^ (-1074 : Int) ≤ 1 := by
        rw [zpow_neg]
        apply inv_le_one_of_one_le₀
        exact one_le_zpow₀ (by norm_num) (by norm_num)
      linarith
  have hge : (1 : Int) ≤ roundHalfEven (x / 2 ^ ulpExp x) := by
    apply le_roundHalfEven
    rw [Int.cast_one, le_div_iff₀ hpow]
    linarith
  have hr : (0 : ℚ) < roundHalfEven (x / 2 ^ ulpExp x) * 2 ^ ulpExp x :=
    mul_pos (by exact_mod_cast hge) hpow
  unfold F64.round
  simp only
  split_ifs with h1 h2
  · left; rfl
  · exfalso
    have : (0 : ℚ) < 2 ^ 1024 := by positivity
    linarith
  · right; exact ⟨_, rfl, hr⟩

/-! ## Lemmas on the operations -/

theorem Inv_NewPlayer : NewPlayer.Inv :=
  ⟨by simp [NewPlayer], by simp [NewPlayer], by simp [NewPlayer],
    ⟨1, rfl, by norm_num, le_refl _⟩⟩

theorem Inv_Play {p : Player} (h : p.Inv) : p.Play.Inv := by
  obtain ⟨h1, h2, h3, h4⟩ := h
  rcases p with ⟨ctrl, fmt, str, cf, ip, vol, pos, dur⟩
  cases ctrl <;> cases str <;> constructor <;> simp_all [Player.Play]

theorem Inv_Pause {p : Player} (h : p.Inv) : p.Pause.Inv := by
  obtain ⟨h1, h2, h3, h4⟩ := h
  rcases p with ⟨ctrl, fmt, str, cf, ip, vol, pos, dur⟩
  cases ctrl <;> cases str <;> constructor <;> simp_all [Player.Pause]

theorem Inv_Stop {p q : Player} (h : p.Inv) (hq : p.Stop = Except.ok q) : q.Inv := by
  obtain ⟨h1, h2, h3, h4⟩ := h
  rcases p with ⟨ctrl, fmt, str, cf, ip, vol, pos, dur⟩
  cases ctrl <;> cases str <;> simp [Player.Stop] at hq <;> subst hq <;>
    constructor <;> simp_all

theorem Inv_Seek (cvt : F64 → Int) {p : Player} (seconds : F64) (h : p.Inv) :
    (p.Seek cvt seconds).Inv := by
  obtain ⟨h1, h2, h3, h4⟩ := h
  rcases p with ⟨ctrl, fmt, str, cf, ip, vol, pos, dur⟩
  cases ctrl <;> cases str <;> constructor <;> simp_all [Player.Seek]

theorem Inv_engineAdvance {p : Player} (n : Nat) (h : p.Inv) : (p.engineAdvance n).Inv := by
  obtain ⟨h1, h2, h3, h4⟩ := h
  rcases p with ⟨ctrl, fmt, str, cf, ip, vol, pos, dur⟩
  cases ctrl <;> cases str <;> simp only [Player.engineAdvance] <;>
    (try split) <;> constructor <;> simp_all

theorem SetVolume_fin (p : Player) (v : ℚ) :
    (p.SetVolume (F64.fin v)).volume = F64.fin (min 1 (max 0 v)) := by
  simp only [Player.SetVolume, F64.lt]
  by_cases h0 : v < 0
  · have h1 : ¬ (1 : ℚ) < 0 := by norm_num
    simp [h0, F64.lt, h1, max_eq_left (le_of_lt h0)]
  · have h0' : 0 ≤ v := not_lt.mp h0
    by_cases h1 : 1 < v
    · simp [h0, h1, F64.lt, max_eq_right h0', min_eq_left (le_of_lt h1)]
    · simp [h0, h1, F64.lt, max_eq_right h0', min_eq_right (not_lt.mp h1)]

/-- `SetVolume` stores a number of `[0, 1]` whenever its argument is not `NaN`. -/
theorem SetVolume_range (p : Player) (v : F64) (hv : v ≠ F64.nan) :
    ∃ q : ℚ, (p.SetVolume v).volume = F64.fin q ∧ 0 ≤ q ∧ q ≤ 1 := by
  cases v with
  | fin a =>
      exact ⟨min 1 (max 0 a), SetVolume_fin p a, le_min (by norm_num) (le_max_left _ _),
        min_le_left _ _⟩
  | posInf => exact ⟨1, by simp [Player.SetVolume, F64.lt], by norm_num, le_refl _⟩
  | negInf =>
      refine ⟨0, ?_, le_refl _, by norm_num⟩
      have h1 : ¬ (1 : ℚ) < 0 := by norm_num
      simp [Player.SetVolume, F64.lt, h1]
  | nan => exact absurd rfl hv

theorem Inv_SetVolume {p : Player} (v : F64) (hv : v ≠ F64.nan) (h : p.Inv) :
    (p.SetVolume v).Inv := by
  obtain ⟨h1, h2, h3, h4⟩ := h
  exact ⟨h1, h2, h3, SetVolume_range p v hv⟩

theorem add_fin_ne_nan (a : ℚ) (y : F64) (hy : y ≠ F64.nan) : F64.add (F64.fin a) y ≠ F64.nan := by
  cases y with
  | fin b => exact round_ne_nan _
  | posInf => simp [F64.add]
  | negInf => simp [F64.add]
  | nan => exact absurd rfl hy

theorem neg_ne_nan (y : F64) (hy : y ≠ F64.nan) : F64.neg y ≠ F64.nan := by
  cases y <;> simp_all [F64.neg]

/-- The two outcomes of `LoadFile`: an error with only the old stream closed,
or success with a decoded stream installed. -/
theorem LoadFile_cases (env : Env) (path : String) (p : Player) :
    (∃ e, p.LoadFile env path = (some e, p.closeStreamer)) ∨
    (∃ s f, (env.mp3Decode = some (s, f) ∨ env.wavDecode = some (s, f)) ∧
      p.LoadFile env path = (none, p.closeStreamer.install path s f)) := by
  unfold Player.LoadFile
  by_cases ho : env.osOpen = false
  · left; simp [ho]
  by_cases hi : env.speakerInit = false
  · by_cases h3 : ToLower (Ext path) = ".mp3"
    · cases hm : env.mp3Decode with
      | none => left; simp [ho, h3, hm]
      | some sf => left; simp [ho, h3, hm, hi]
    · by_cases hw : ToLower (Ext path) = ".wav"
      · cases hm : env.wavDecode with
        | none => left; simp [ho, h3, hw, hm]
        | some sf => left; simp [ho, h3, hw, hm, hi]
      · left; simp [ho, h3, hw]
  · by_cases h3 : ToLower (Ext path) = ".mp3"
    · cases hm : env.mp3Decode with
      | none => left; simp [ho, h3, hm]
      | some sf =>
          right; exact ⟨sf.1, sf.2, Or.inl rfl, by simp [ho, h3, hm, hi]⟩
    · by_cases hw : ToLower (Ext path) = ".wav"
      · cases hm : env.wavDecode with
        | none => left; simp [ho, h3, hw, hm]
        | some sf =>
            right; exact ⟨sf.1, sf.2, Or.inr rfl, by simp [ho, h3, hw, hm, hi]⟩
      · left; simp [ho, h3, hw]

theorem Inv_closeStreamer {p : Player} (h : p.Inv) : p.closeStreamer.Inv := by
  obtain ⟨h1, h2, h3, h4⟩ := h
  rcases p with ⟨ctrl, fmt, str, cf, ip, vol, pos, dur⟩
  cases ctrl <;> cases str <;> constructor <;> simp_all [Player.closeStreamer]

theorem Inv_install {p : Player} (path : String) (s : Stream) (f : Format) (h : p.Inv) :
    (p.install path s f).Inv := by
  obtain ⟨h1, h2, h3, h4⟩ := h
  constructor <;> simp_all [Player.install]

theorem Inv_LoadFile (env : Env) (path : String) {p : Player} (h : p.Inv) :
    (p.LoadFile env path).2.Inv := by
  rcases LoadFile_cases env path p with ⟨e, he⟩ | ⟨s, f, -, hs⟩
  · rw [he]; exact Inv_closeStreamer h
  · rw [hs]; exact Inv_install path s f (Inv_closeStreamer h)

theorem Inv_handleKeyEvent (cvt : F64 → Int) {ui ui1 : PlayerUI} (k : Key)
    (h : ui.player.Inv) (hk : ui.handleKeyEvent cvt k = Except.ok ui1) : ui1.player.Inv := by
  cases k with
  | Escape =>
      simp only [PlayerUI.handleKeyEvent, PlayerUI.closeQuit] at hk
      split_ifs at hk
      cases hk; exact h
  | CtrlC =>
      simp only [PlayerUI.handleKeyEvent, PlayerUI.closeQuit] at hk
      split_ifs at hk
      cases hk; exact h
  | Rune r =>
      simp only [PlayerUI.handleKeyEvent] at hk
      split_ifs at hk
      · cases hk; exact Inv_Pause h
      · cases hk; exact Inv_Play h
      · cases hs : ui.player.Stop with
        | error e => simp [hs] at hk
        | ok q =>
            simp only [hs] at hk
            cases hk
            exact Inv_Stop h hs
      · cases hk
        obtain ⟨q, hq, -, -⟩ := h.vol
        simp only [hq]
        exact Inv_SetVolume _ (add_fin_ne_nan q _ (round_ne_nan _)) h
      · cases hk
        obtain ⟨q, hq, -, -⟩ := h.vol
        simp only [hq, F64.sub]
        exact Inv_SetVolume _ (add_fin_ne_nan q _ (neg_ne_nan _ (round_ne_nan _))) h
      · cases hk; exact h
  | Left => cases hk; exact Inv_Seek cvt _ h
  | Right => cases hk; exact Inv_Seek cvt _ h
  | Other => cases hk; exact h

theorem Inv_of_Reachable {dec : Env → Prop} {cvt : F64 → Int} {p : Player}
    (h : Reachable dec cvt p) : p.Inv := by
  induction h with
  | newPlayer => exact Inv_NewPlayer
  | loadFile env path _ _ ih => exact Inv_LoadFile env path ih
  | play _ ih => exact Inv_Play ih
  | pause _ ih => exact Inv_Pause ih
  | stop _ hq ih => exact Inv_Stop ih hq
  | seek seconds _ ih => exact Inv_Seek cvt seconds ih
  | setVolume v _ ih => exact Inv_SetVolume _ (by simp) ih
  | keyEvent k closed _ hk ih => exact Inv_handleKeyEvent cvt k ih hk
  | engine n _ ih => exact Inv_engineAdvance n ih

theorem Stream.Seek_wf (s : Stream) (n : Int) (h : 0 ≤ s.pos ∧ s.pos ≤ s.len) :
    0 ≤ (s.Seek n).pos ∧ (s.Seek n).pos ≤ (s.Seek n).len := by
  unfold Stream.Seek
  split_ifs with hc hn
  · exact h
  · exact hn
  · exact h

theorem Wf_Play {p : Player} (h : p.Wf) : p.Play.Wf := by
  rcases p with ⟨ctrl, fmt, str, cf, ip, vol, pos, dur⟩
  cases ctrl <;> simpa [Player.Play, Player.Wf] using h

theorem Wf_Pause {p : Player} (h : p.Wf) : p.Pause.Wf := by
  rcases p with ⟨ctrl, fmt, str, cf, ip, vol, pos, dur⟩
  cases ctrl <;> simpa [Player.Pause, Player.Wf] using h

theorem Wf_Stop {p q : Player} (h : p.Wf) (hq : p.Stop = Except.ok q) : q.Wf := by
  rcases p with ⟨ctrl, fmt, str, cf, ip, vol, pos, dur⟩
  cases str with
  | none => simp [Player.Stop] at hq; subst hq; exact h
  | some s =>
      cases ctrl with
      | none => simp [Player.Stop] at hq
      | some c =>
          simp [Player.Stop] at hq
          subst hq
          intro t ht
          simp only [Option.some.injEq] at ht
          subst ht
          obtain ⟨h1, h2, h3⟩ := h s rfl
          exact ⟨(Stream.Seek_wf s 0 ⟨h1, h2⟩).1, (Stream.Seek_wf s 0 ⟨h1, h2⟩).2, h3⟩

theorem Wf_Seek (cvt : F64 → Int) {p : Player} (seconds : F64) (h : p.Wf) :
    (p.Seek cvt seconds).Wf := by
  rcases p with ⟨ctrl, fmt, str, cf, ip, vol, pos, dur⟩
  cases str with
  | none => exact h
  | some s =>
      intro t ht
      simp only [Player.Seek, Option.some.injEq] at ht
      subst ht
      obtain ⟨h1, h2, h3⟩ := h s rfl
      exact ⟨(Stream.Seek_wf s _ ⟨h1, h2⟩).1, (Stream.Seek_wf s _ ⟨h1, h2⟩).2, h3⟩

theorem Wf_SetVolume {p : Player} (v : F64) (h : p.Wf) : (p.SetVolume v).Wf := h

theorem Wf_engineAdvance {p : Player} (n : Nat) (h : p.Wf) : (p.engineAdvance n).Wf := by
  rcases p with ⟨ctrl, fmt, str, cf, ip, vol, pos, dur⟩
  cases ctrl with
  | none => exact h
  | some c =>
      cases str with
      | none => exact h
      | some s =>
          simp only [Player.engineAdvance]
          split_ifs
          · exact h
          · intro t ht
            simp only [Option.some.injEq] at ht
            subst ht
            obtain ⟨h1, h2, h3⟩ := h s rfl
            refine ⟨le_min (by positivity) (le_trans h1 h2), min_le_right _ _, h3⟩

theorem Wf_closeStreamer {p : Player} (h : p.Wf) : p.closeStreamer.Wf := by
  rcases p with ⟨ctrl, fmt, str, cf, ip, vol, pos, dur⟩
  cases str with
  | none => exact h
  | some s =>
      intro t ht
      simp only [Player.closeStreamer, Option.some.injEq] at ht
      subst ht
      exact h s rfl

theorem Wf_LoadFile (env : Env) (path : String) {p : Player} (he : env.wf) (h : p.Wf) :
    (p.LoadFile env path).2.Wf := by
  rcases LoadFile_cases env path p with ⟨e, hl⟩ | ⟨s, f, hd, hs⟩
  · rw [hl]; exact Wf_closeStreamer h
  · rw [hs]
    intro t ht
    simp only [Player.install, Option.some.injEq] at ht
    subst ht
    rcases hd with hd | hd
    · exact he.1 s f hd
    · exact he.2 s f hd

theorem Wf_handleKeyEvent (cvt : F64 → Int) {ui ui1 : PlayerUI} (k : Key)
    (h : ui.player.Wf) (hk : ui.handleKeyEvent cvt k = Except.ok ui1) : ui1.player.Wf := by
  cases k with
  | Escape =>
      simp only [PlayerUI.handleKeyEvent, PlayerUI.closeQuit] at hk
      split_ifs at hk
      cases hk; exact h
  | CtrlC =>
      simp only [PlayerUI.handleKeyEvent, PlayerUI.closeQuit] at hk
      split_ifs at hk
      cases hk; exact h
  | Rune r =>
      simp only [PlayerUI.handleKeyEvent] at hk
      split_ifs at hk
      · cases hk; exact Wf_Pause h
      · cases hk; exact Wf_Play h
      · cases hs : ui.player.Stop with
        | error e => simp [hs] at hk
        | ok q =>
            simp only [hs] at hk
            cases hk
            exact Wf_Stop h hs
      · cases hk; exact Wf_SetVolume _ h
      · cases hk; exact Wf_SetVolume _ h
      · cases hk; exact h
  | Left => cases hk; exact Wf_Seek cvt _ h
  | Right => cases hk; exact Wf_Seek cvt _ h
  | Other => cases hk; exact h

theorem Wf_of_Reachable {cvt : F64 → Int} {p : Player} (h : Reachable Env.wf cvt p) :
    p.Wf := by
  induction h with
  | newPlayer => intro s hs; simp [NewPlayer] at hs
  | loadFile env path _ he ih => exact Wf_LoadFile env path he ih
  | play _ ih => exact Wf_Play ih
  | pause _ ih => exact Wf_Pause ih
  | stop _ hq ih => exact Wf_Stop ih hq
  | seek seconds _ ih => exact Wf_Seek cvt seconds ih
  | setVolume v _ ih => exact Wf_SetVolume _ ih
  | keyEvent k closed _ hk ih => exact Wf_handleKeyEvent cvt k ih hk
  | engine n _ ih => exact Wf_engineAdvance n ih

/-- With the invariant, `Stop` does not panic. -/
theorem Stop_ok_of_Inv {p : Player} (h : p.Inv) : ∃ q, p.Stop = Except.ok q := by
  obtain ⟨h1, -, -, -⟩ := h
  rcases p with ⟨ctrl, fmt, str, cf, ip, vol, pos, dur⟩
  cases ctrl <;> cases str <;> simp_all [Player.Stop]

/-- The quotient of frame 0 by a positive sample rate is 0. -/
theorem div_zero_ofInt (sr : Int) (h : 0 < sr) :
    F64.div (F64.ofInt 0) (F64.ofInt sr) = F64.fin 0 := by
  have h0 : F64.round ((0 : Int) : ℚ) = F64.fin ((0 : Int) : ℚ) := round_intCast 0 (by norm_num)
  have h0q : F64.round 0 = F64.fin 0 := by simpa using h0
  have h1 : (1 : ℚ) ≤ (sr : ℚ) := by exact_mod_cast h
  simp only [F64.ofInt, Int.cast_zero, h0q]
  rcases round_pos_of_one_le h1 with hinf | ⟨r, hr, hpos⟩
  · rw [hinf]; rfl
  · rw [hr]
    simp only [F64.div, ne_of_gt hpos, if_false, zero_div, h0q]

/-- Exact quotients of small integers are computed exactly. -/
theorem div_ofInt_exact (a b c : Int) (hb : b ≠ 0) (hab : a = c * b)
    (ha : |(a : ℚ)| < 2 ^ 53) (hb53 : |(b : ℚ)| < 2 ^ 53) (hc : |(c : ℚ)| < 2 ^ 53) :
    F64.div (F64.ofInt a) (F64.ofInt b) = F64.fin c := by
  have hbq : (b : ℚ) ≠ 0 := by exact_mod_cast hb
  simp only [F64.ofInt, round_intCast a ha, round_intCast b hb53, F64.div, hbq, if_false]
  have : (a : ℚ) / b = c := by
    rw [hab]; push_cast; field_simp
  rw [this]
  exact round_intCast c hc

theorem sub_fin (a b : ℚ) : F64.sub (F64.fin a) (F64.fin b) = F64.round (a + -b) := rfl

/-- What `Stop` leaves behind. -/
theorem Stop_post {p q : Player} (hi : p.Inv) (hw : p.Wf) (hq : p.Stop = Except.ok q) :
    q.isPlaying = false ∧ (∀ c, q.ctrl = some c → c.Paused = true) ∧
    (p.streamer ≠ none → ∃ c, q.ctrl = some c) ∧
    ((∀ s, p.streamer = some s → s.closed = false) → q.GetPosition = F64.fin 0) ∧
    (∀ s, p.streamer = some s → s.closed = true → q.GetPosition = p.GetPosition) := by
  obtain ⟨h1, h2, h3, h4⟩ := hi
  rcases p with ⟨ctrl, fmt, str, cf, ip, vol, pos, dur⟩
  cases str with
  | none =>
      simp [Player.Stop] at hq
      subst hq
      simp_all [Player.GetPosition]
  | some s =>
      cases ctrl with
      | none => simp [Player.Stop] at hq
      | some c =>
          simp [Player.Stop] at hq
          subst hq
          obtain ⟨g1, g2, g3⟩ := hw s rfl
          have hlen : (0 : Int) ≤ 0 ∧ 0 ≤ s.len := ⟨le_refl _, le_trans g1 g2⟩
          refine ⟨rfl, by simp, by simp, ?_, ?_⟩
          · intro hopen
            have hc : s.closed = false := hopen s rfl
            simp only [Player.GetPosition, Stream.Seek, hc, hlen]
            simpa using div_zero_ofInt fmt.SampleRate g3
          · intro t ht hclosed
            simp only [Option.some.injEq] at ht
            subst ht
            simp [Player.GetPosition, Stream.Seek, hclosed]

theorem tenSecondEnv_wf : tenSecondEnv.wf := by
  constructor
  · intro s f h
    simp only [tenSecondEnv, Option.some.injEq, Prod.mk.injEq] at h
    obtain ⟨rfl, rfl⟩ := h
    simp [tenSecondStream, cdFormat]
  · intro s f h
    simp [tenSecondEnv] at h

theorem tenSecondPlayer_eq :
    tenSecondPlayer =
      { NewPlayer with
        ctrl := some { Paused := true }
        streamer := some tenSecondStream
        format := cdFormat
        currentFile := "sample.mp3"
        duration := F64.div (F64.ofInt 441000) (F64.ofInt 44100) } := by
  have hext : ToLower (Ext "sample.mp3") = ".mp3" := by decide
  simp [tenSecondPlayer, Player.LoadFile, hext, tenSecondEnv, Player.install,
    Player.closeStreamer, NewPlayer, tenSecondStream, cdFormat]

theorem Reachable_tenSecondPlayer (cvt : F64 → Int) :
    Reachable Env.wf cvt tenSecondPlayer :=
  Reachable.loadFile tenSecondEnv "sample.mp3" Reachable.newPlayer tenSecondEnv_wf

theorem Reachable_playingPlayer (cvt : F64 → Int) :
    Reachable Env.wf cvt playingPlayer :=
  Reachable.engine 132300 (Reachable.play (Reachable_tenSecondPlayer cvt))

theorem Reachable_mono {dec dec1 : Env → Prop} {cvt : F64 → Int} {p : Player}
    (hd : ∀ env, dec env → dec1 env) (h : Reachable dec cvt p) : Reachable dec1 cvt p := by
  induction h with
  | newPlayer => exact Reachable.newPlayer
  | loadFile env path _ he ih => exact Reachable.loadFile env path ih (hd env he)
  | play _ ih => exact Reachable.play ih
  | pause _ ih => exact Reachable.pause ih
  | stop _ hq ih => exact Reachable.stop ih hq
  | seek seconds _ ih => exact Reachable.seek seconds ih
  | setVolume v _ ih => exact Reachable.setVolume v ih
  | keyEvent k closed _ hk ih => exact Reachable.keyEvent k closed ih hk
  | engine n _ ih => exact Reachable.engine n ih

/-- The input task keeps the player among the reachable states. -/
theorem Reachable_handleEvents {dec : Env → Prop} {cvt : F64 → Int} (evs : List Event) :
    ∀ (ui ui1 : PlayerUI), Reachable dec cvt ui.player →
      PlayerUI.handleEvents cvt evs ui = Except.ok ui1 → Reachable dec cvt ui1.player := by
  induction evs with
  | nil =>
      intro ui ui1 h he
      simp only [PlayerUI.handleEvents, Except.ok.injEq] at he
      subst he; exact h
  | cons ev rest ih =>
      intro ui ui1 h he
      simp only [PlayerUI.handleEvents] at he
      split_ifs at he with hq
      · simp only [Except.ok.injEq] at he
        subst he; exact h
      · cases ev with
        | key k =>
            simp only at he
            cases hk : ui.handleKeyEvent cvt k with
            | error e => simp [hk] at he
            | ok ui2 =>
                simp only [hk] at he
                exact ih ui2 ui1 (Reachable.keyEvent k ui.quitClosed h hk) he
        | resize => exact ih ui ui1 h he
        | other => exact ih ui ui1 h he

/-! ## Lemmas on seeking -/

theorem truncQ_intCast (n : Int) : truncQ (n : ℚ) = n := by
  simp [truncQ]

theorem wrapInt64_of_range (n : Int) (h : -(2 ^ 63) ≤ n ∧ n < 2 ^ 63) : wrapInt64 n = n := by
  unfold wrapInt64
  omega

/-- The frame count of `k` whole seconds, when the product of nanoseconds and
sample rate fits `int64`. -/
theorem N_whole (sr k : Int)
    (h : -(2 ^ 63) ≤ k * Second * sr ∧ k * Second * sr < 2 ^ 63) :
    SampleRate.N sr (k * Second) = k * sr := by
  simp only [SampleRate.N, wrapInt64_of_range _ h]
  have h1 : k * Second * sr = k * sr * Second := by ring
  rw [h1]
  exact Int.mul_tdiv_cancel _ (by simp [Second])

/-- The frame offset of `Seek` for a finite target whose whole seconds `k`
overflow neither the nanosecond count nor its product with the sample rate:
`k * SampleRate`, raised to 0 when negative and replaced by `Len() - 1` when
above `Len()`. -/
theorem seekFrame_eq (cvt : F64 → Int) (p : Player) (s : Stream) (t : ℚ)
    (h1 : -(2 ^ 63) ≤ truncQ t * Second ∧ truncQ t * Second < 2 ^ 63)
    (h2 : -(2 ^ 63) ≤ truncQ t * Second * p.format.SampleRate ∧
      truncQ t * Second * p.format.SampleRate < 2 ^ 63) :
    p.seekFrame cvt s (F64.fin t) =
      if (if truncQ t * p.format.SampleRate < 0 then 0 else truncQ t * p.format.SampleRate)
          > s.len then s.len - 1
      else (if truncQ t * p.format.SampleRate < 0 then 0
        else truncQ t * p.format.SampleRate) := by
  have hk : -(2 ^ 63) ≤ truncQ t ∧ truncQ t < 2 ^ 63 := by
    simp only [Second] at h1
    omega
  have hconv : F64.toInt cvt (F64.fin t) = truncQ t := by
    simp only [F64.toInt]
    rw [if_pos hk]
  simp only [Player.seekFrame, hconv, wrapInt64_of_range _ h1, N_whole _ _ h2]

/-- For a stream of at least one frame the offset handed to the stream lies in
`[0, Len()]`. -/
theorem seekFrame_range (cvt : F64 → Int) (p : Player) (s : Stream) (seconds : F64)
    (hlen : 1 ≤ s.len) :
    0 ≤ p.seekFrame cvt s seconds ∧ p.seekFrame cvt s seconds ≤ s.len := by
  simp only [Player.seekFrame]
  split_ifs <;> omega

theorem tenSecondPlayer_format : tenSecondPlayer.format = cdFormat := by
  rw [tenSecondPlayer_eq]

theorem tenSecondPlayer_streamer : tenSecondPlayer.streamer = some tenSecondStream := by
  rw [tenSecondPlayer_eq]

theorem truncQ_ten : truncQ 10 = 10 := by
  have h := truncQ_intCast 10
  norm_num at h
  exact h

theorem truncQ_two_point_seven : truncQ (27 / 10) = 2 := by
  norm_num [truncQ]
  decide

/-! ## Lemmas on the concrete session -/

theorem GetPosition_eq {p : Player} {s : Stream} (h : p.streamer = some s) :
    p.GetPosition = F64.div (F64.ofInt s.pos) (F64.ofInt p.format.SampleRate) := by
  simp [Player.GetPosition, h]

theorem ten_seconds : F64.div (F64.ofInt 441000) (F64.ofInt 44100) = F64.fin 10 := by
  have h := div_ofInt_exact 441000 44100 10 (by norm_num) (by norm_num) (by norm_num)
    (by norm_num) (by norm_num)
  simpa using h

theorem tenSecondPlayer_duration : tenSecondPlayer.duration = F64.fin 10 := by
  rw [tenSecondPlayer_eq]
  exact ten_seconds

theorem playingPlayer_streamer :
    playingPlayer.streamer = some { len := 441000, pos := 132300, closed := false } := by
  simp [playingPlayer, tenSecondPlayer_eq, Player.Play, Player.engineAdvance, NewPlayer,
    tenSecondStream]

theorem playingPlayer_format : playingPlayer.format = cdFormat := by
  simp [playingPlayer, tenSecondPlayer_eq, Player.Play, Player.engineAdvance, NewPlayer,
    tenSecondStream]

theorem playingPlayer_position : playingPlayer.GetPosition = F64.fin 3 := by
  rw [GetPosition_eq playingPlayer_streamer, playingPlayer_format]
  have h := div_ofInt_exact 132300 44100 3 (by norm_num) (by norm_num) (by norm_num)
    (by norm_num) (by norm_num)
  simpa [cdFormat] using h

theorem Play_duration (p : Player) : p.Play.duration = p.duration := by
  unfold Player.Play
  split <;> rfl

theorem engineAdvance_duration (p : Player) (n : Nat) :
    (p.engineAdvance n).duration = p.duration := by
  unfold Player.engineAdvance
  split
  · split <;> rfl
  · rfl

theorem GetDuration_eq (p : Player) : p.GetDuration = p.duration := rfl

theorem playingPlayer_duration : playingPlayer.GetDuration = F64.fin 10 := by
  rw [GetDuration_eq, playingPlayer, engineAdvance_duration, Play_duration,
    tenSecondPlayer_duration]

theorem reloadedPlayer_streamer :
    reloadedPlayer.streamer = some { len := 441000, pos := 132300, closed := true } := by
  have hext1 : Ext "next.flac" = ".flac" := by decide
  have hmp3 : ToLower ".flac" ≠ ".mp3" := by decide
  have hwav : ToLower ".flac" ≠ ".wav" := by decide
  simp [reloadedPlayer, Player.LoadFile, hext1, hmp3, hwav, tenSecondEnv,
    Player.closeStreamer, Stream.Close, playingPlayer_streamer]

theorem reloadedPlayer_format : reloadedPlayer.format = cdFormat := by
  have hext1 : Ext "next.flac" = ".flac" := by decide
  have hmp3 : ToLower ".flac" ≠ ".mp3" := by decide
  have hwav : ToLower ".flac" ≠ ".wav" := by decide
  simp [reloadedPlayer, Player.LoadFile, hext1, hmp3, hwav, tenSecondEnv,
    Player.closeStreamer, Stream.Close, playingPlayer_streamer, playingPlayer_format]

theorem Reachable_reloadedPlayer (cvt : F64 → Int) : Reachable Env.wf cvt reloadedPlayer :=
  Reachable.loadFile tenSecondEnv "next.flac" (Reachable_playingPlayer cvt) tenSecondEnv_wf

/-- With `quit` closed the input task handles no event. -/
theorem handleEvents_closed (cvt : F64 → Int) (evs : List Event) (ui : PlayerUI)
    (h : ui.quitClosed = true) : PlayerUI.handleEvents cvt evs ui = Except.ok ui := by
  cases evs with
  | nil => rfl
  | cons ev rest => simp [PlayerUI.handleEvents, h]

/-- A key handled while `quit` is open does not close a closed channel. -/
theorem handleKeyEvent_no_double_close (cvt : F64 → Int) (ui : PlayerUI) (k : Key)
    (h : ui.quitClosed = false) :
    ui.handleKeyEvent cvt k ≠ Except.error Panic.closeOfClosedChannel := by
  cases k with
  | Escape => simp [PlayerUI.handleKeyEvent, PlayerUI.closeQuit, h]
  | CtrlC => simp [PlayerUI.handleKeyEvent, PlayerUI.closeQuit, h]
  | Rune r =>
      simp only [PlayerUI.handleKeyEvent]
      split_ifs <;> try simp
      rcases hp : ui.player with ⟨ctrl, fmt, str, cf, ip, vol, pos, dur⟩
      cases ctrl <;> cases str <;> simp [Player.Stop]
  | Left => simp [PlayerUI.handleKeyEvent]
  | Right => simp [PlayerUI.handleKeyEvent]
  | Other => simp [PlayerUI.handleKeyEvent]

theorem handleEvents_no_double_close (cvt : F64 → Int) (evs : List Event) :
    ∀ ui : PlayerUI,
      PlayerUI.handleEvents cvt evs ui ≠ Except.error Panic.closeOfClosedChannel := by
  induction evs with
  | nil => intro ui; simp [PlayerUI.handleEvents]
  | cons ev rest ih =>
      intro ui
      simp only [PlayerUI.handleEvents]
      split_ifs with hq
      · simp
      · cases ev with
        | key k =>
            simp only
            cases hk : ui.handleKeyEvent cvt k with
            | error e =>
                simp only
                intro he
                injection he with he
                subst he
                exact handleKeyEvent_no_double_close cvt ui k (by simpa using hq) hk
            | ok ui1 => exact ih ui1
        | resize => exact ih ui
        | other => exact ih ui

/-- Running the input task on `a ++ b` is running it on `a` and then on `b`. -/
theorem handleEvents_append (cvt : F64 → Int) (a b : List Event) :
    ∀ ui : PlayerUI,
      PlayerUI.handleEvents cvt (a ++ b) ui =
        match PlayerUI.handleEvents cvt a ui with
        | Except.ok ui1 => PlayerUI.handleEvents cvt b ui1
        | Except.error e => Except.error e := by
  induction a with
  | nil => intro ui; simp [PlayerUI.handleEvents]
  | cons ev rest ih =>
      intro ui
      by_cases hq : ui.quitClosed = true
      · rw [handleEvents_closed cvt _ ui hq, handleEvents_closed cvt _ ui hq]
        simp only
        rw [handleEvents_closed cvt _ ui hq]
      · simp only [List.cons_append, PlayerUI.handleEvents, hq]
        cases ev with
        | key k =>
            simp only [Bool.false_eq_true, ↓reduceIte]
            cases hk : ui.handleKeyEvent cvt k with
            | error e => rfl
            | ok ui1 => exact ih ui1
        | resize => simpa using ih ui
        | other => simpa using ih ui

/-- A quit key followed by any events: `quit` ends closed, nothing else moves. -/
theorem handleEvents_quit_key (cvt : F64 → Int) (k : Key) (hk : k = Key.Escape ∨ k = Key.CtrlC)
    (post : List Event) (ui : PlayerUI) :
    PlayerUI.handleEvents cvt (Event.key k :: post) ui =
      Except.ok { ui with quitClosed := true } := by
  by_cases hq : ui.quitClosed = true
  · rw [handleEvents_closed cvt _ ui hq]
    congr 1
    cases ui
    simp_all
  · have hq1 : ui.quitClosed = false := by simpa using hq
    rcases hk with rfl | rfl <;>
      simp [PlayerUI.handleEvents, PlayerUI.handleKeyEvent, PlayerUI.closeQuit, hq1,
        handleEvents_closed]

/-! ## Lemmas on the progress bar -/

theorem round_tenth :
    F64.round (1 / 10) = F64.fin (3602879701896397 / 36028797018963968) := by
  apply round_eq_pos (-4) 7205759403792794 <;> norm_num

/-- One press of `-` at full volume: `1.0 - 0.1` in float64. -/
theorem round_volume_down :
    F64.round (1 + -(3602879701896397 / 36028797018963968))
      = F64.fin (8106479329266893 / 9007199254740992) := by
  apply round_eq_pos (-1) 8106479329266893 <;> norm_num

theorem volume_down :
    F64.sub (F64.fin 1) (F64.round (1 / 10)) = F64.fin (8106479329266893 / 9007199254740992) := by
  rw [round_tenth, sub_fin, round_volume_down]

/-- `SetVolume` stores a finite value of `[0, 1]` as it is. -/
theorem SetVolume_id (p : Player) (v : ℚ) (h0 : 0 ≤ v) (h1 : v ≤ 1) :
    p.SetVolume (F64.fin v) = { p with volume := F64.fin v } := by
  have h0n : ¬ v < 0 := not_lt.mpr h0
  have h1n : ¬ 1 < v := not_lt.mpr h1
  simp [Player.SetVolume, F64.lt, h0n, h1n]

theorem playingPlayer_isPlaying : playingPlayer.isPlaying = true := by
  simp [playingPlayer, tenSecondPlayer_eq, Player.Play, Player.engineAdvance, NewPlayer,
    tenSecondStream]

/-! ## The claims -/

/-- C1 (evaluation at the failing input): on the 10-second 44100 Hz stream,
`Seek(10)` hands the stream the offset 441000, which is `Len()` itself and
not at most `Len() - 1`; the cursor ends at end-of-stream. -/
theorem C1_seek_ten_lands_on_len (cvt : F64 → Int) :
    tenSecondPlayer.streamer = some tenSecondStream ∧
    tenSecondStream.len = 441000 ∧
    tenSecondPlayer.seekFrame cvt tenSecondStream (F64.fin 10) = 441000 ∧
    ¬ (tenSecondPlayer.seekFrame cvt tenSecondStream (F64.fin 10) ≤ tenSecondStream.len - 1) ∧
    (tenSecondPlayer.Seek cvt (F64.fin 10)).streamer =
      some { tenSecondStream with pos := 441000 } := by
  have hf : tenSecondPlayer.seekFrame cvt tenSecondStream (F64.fin 10) = 441000 := by
    rw [seekFrame_eq]
    · simp [truncQ_ten, tenSecondPlayer_format, cdFormat, tenSecondStream]
    · simp [truncQ_ten, Second]
    · simp [truncQ_ten, tenSecondPlayer_format, cdFormat, Second]
  refine ⟨tenSecondPlayer_streamer, rfl, hf, ?_, ?_⟩
  · rw [hf]; simp [tenSecondStream]
  · simp only [Player.Seek, tenSecondPlayer_streamer, hf]
    simp [Stream.Seek, tenSecondStream]

/-- C2 (evaluation at the failing input): on the 10-second 44100 Hz stream,
`Seek(2.7)` followed by `GetPosition()` gives 2.0, which is farther than one
frame time from `clamp(2.7, 0, 10 - 1/44100) = 2.7`. -/
theorem C2_seek_drops_fraction (cvt : F64 → Int) :
    tenSecondPlayer.GetDuration = F64.fin 10 ∧
    (tenSecondPlayer.Seek cvt (F64.fin (27 / 10))).GetPosition = F64.fin 2 ∧
    ¬ (|(2 : ℚ) - min (max (27 / 10) 0) (10 - 1 / 44100)| ≤ 1 / 44100) := by
  have hf : tenSecondPlayer.seekFrame cvt tenSecondStream (F64.fin (27 / 10)) = 88200 := by
    rw [seekFrame_eq]
    · simp [truncQ_two_point_seven, tenSecondPlayer_format, cdFormat, tenSecondStream]
    · simp [truncQ_two_point_seven, Second]
    · simp [truncQ_two_point_seven, tenSecondPlayer_format, cdFormat, Second]
  have hdiv : F64.div (F64.ofInt 88200) (F64.ofInt 44100) = F64.fin 2 := by
    have h := div_ofInt_exact 88200 44100 2 (by norm_num) (by norm_num) (by norm_num)
      (by norm_num) (by norm_num)
    simpa using h
  refine ⟨?_, ?_, ?_⟩
  · rw [GetDuration_eq, tenSecondPlayer_duration]
  · simp only [Player.Seek, tenSecondPlayer_streamer, hf, Player.GetPosition,
      tenSecondPlayer_format]
    simpa [Stream.Seek, tenSecondStream, cdFormat] using hdiv
  · have h1 : max (27 / 10 : ℚ) 0 = 27 / 10 := max_eq_left (by norm_num)
    have h2 : min (27 / 10 : ℚ) (10 - 1 / 44100) = 27 / 10 := min_eq_left (by norm_num)
    rw [h1, h2]
    rw [abs_le]
    norm_num

/-- C3 (counterexample): three seconds into the 10-second stream a `LoadFile`
fails on the extension; the stream is closed and still referenced. `Stop` then
seeks a closed stream, the seek fails, and `GetPosition` is still 3, not 0. -/
theorem C3_closed_stream_counterexample :
    Reachable Env.wf cvtZero reloadedPlayer ∧
    reloadedPlayer.streamer = some { len := 441000, pos := 132300, closed := true } ∧
    ∃ q, reloadedPlayer.Stop = Except.ok q ∧ q.GetPosition = F64.fin 3 ∧
      q.GetPosition ≠ F64.fin 0 := by
  have hinv := Inv_of_Reachable (Reachable_reloadedPlayer cvtZero)
  have hwf := Wf_of_Reachable (Reachable_reloadedPlayer cvtZero)
  obtain ⟨q, hq⟩ := Stop_ok_of_Inv hinv
  have hpos : reloadedPlayer.GetPosition = F64.fin 3 := by
    rw [GetPosition_eq reloadedPlayer_streamer, reloadedPlayer_format]
    have h := div_ofInt_exact 132300 44100 3 (by norm_num) (by norm_num) (by norm_num)
      (by norm_num) (by norm_num)
    simpa [cdFormat] using h
  have hkeep := (Stop_post hinv hwf hq).2.2.2.2 _ reloadedPlayer_streamer rfl
  refine ⟨Reachable_reloadedPlayer cvtZero, reloadedPlayer_streamer, q, hq, ?_, ?_⟩
  · rw [hkeep, hpos]
  · rw [hkeep, hpos]
    intro h
    injection h with h
    norm_num at h

/-- C3 (amended): in every state reachable from `NewPlayer`, with decoders that
deliver a positive sample rate and a cursor in `[0, Len()]`, `Stop` returns
without panic and afterwards `isPlaying` is false and `ctrl.Paused` is true
when a file is loaded; `GetPosition` is 0 when nothing is loaded or the loaded
stream is open, and is what it was when the stream has been closed by a failed
`LoadFile`. -/
theorem C3_stop_resets (cvt : F64 → Int) (p : Player) (h : Reachable Env.wf cvt p) :
    ∃ q, p.Stop = Except.ok q ∧ q.isPlaying = false ∧
      (p.streamer ≠ none → ∃ c, q.ctrl = some c ∧ c.Paused = true) ∧
      ((∀ s, p.streamer = some s → s.closed = false) → q.GetPosition = F64.fin 0) ∧
      (∀ s, p.streamer = some s → s.closed = true → q.GetPosition = p.GetPosition) := by
  obtain ⟨q, hq⟩ := Stop_ok_of_Inv (Inv_of_Reachable h)
  obtain ⟨h1, h2, h3, h4, h5⟩ := Stop_post (Inv_of_Reachable h) (Wf_of_Reachable h) hq
  refine ⟨q, hq, h1, ?_, h4, h5⟩
  intro hs
  obtain ⟨c, hc⟩ := h3 hs
  exact ⟨c, hc, h2 c hc⟩

/-- Witness of C3: the 10-second stream, playing, three seconds in. -/
theorem C3_stop_resets_witness :
    Reachable Env.wf cvtZero playingPlayer ∧ playingPlayer.GetPosition = F64.fin 3 ∧
    playingPlayer.streamer = some { len := 441000, pos := 132300, closed := false } ∧
    ∃ q, playingPlayer.Stop = Except.ok q ∧ q.isPlaying = false ∧
      (∃ c, q.ctrl = some c ∧ c.Paused = true) ∧ q.GetPosition = F64.fin 0 := by
  obtain ⟨q, hq, h1, h2, h3, -⟩ :=
    C3_stop_resets cvtZero playingPlayer (Reachable_playingPlayer cvtZero)
  refine ⟨Reachable_playingPlayer cvtZero, playingPlayer_position, playingPlayer_streamer,
    q, hq, h1, h2 ?_, h3 ?_⟩
  · rw [playingPlayer_streamer]; simp
  · intro s hs
    rw [playingPlayer_streamer] at hs
    simp only [Option.some.injEq] at hs
    rw [← hs]

/-- C4: `SetVolume(v)` stores `min(1, max(0, v))` for every real `v` and every
player state; the volume is a real in `[0, 1]` in every reachable state, and
stays so after any run of the input task on key events. -/
theorem C4_volume_clamped :
    (∀ (p : Player) (v : ℚ), (p.SetVolume (F64.fin v)).volume = F64.fin (min 1 (max 0 v))) ∧
    (∀ (dec : Env → Prop) (cvt : F64 → Int) (p : Player), Reachable dec cvt p →
      ∃ q : ℚ, p.volume = F64.fin q ∧ 0 ≤ q ∧ q ≤ 1) ∧
    (∀ (dec : Env → Prop) (cvt : F64 → Int) (evs : List Event) (ui ui1 : PlayerUI),
      Reachable dec cvt ui.player → PlayerUI.handleEvents cvt evs ui = Except.ok ui1 →
      ∃ q : ℚ, ui1.player.volume = F64.fin q ∧ 0 ≤ q ∧ q ≤ 1) :=
  ⟨SetVolume_fin,
    fun _ _ _ h => (Inv_of_Reachable h).vol,
    fun _ _ evs ui ui1 h he => (Inv_of_Reachable (Reachable_handleEvents evs ui ui1 h he)).vol⟩

/-- Witness of C4: `SetVolume(1.7)`, and one press of `-` on the loaded player,
which leaves the float64 nearest to 0.9. -/
theorem C4_volume_clamped_witness :
    (tenSecondPlayer.SetVolume (F64.fin (17 / 10))).volume = F64.fin (min 1 (max 0 (17 / 10))) ∧
    PlayerUI.handleEvents cvtZero [Event.key (Key.Rune '-')]
        { player := tenSecondPlayer, quitClosed := false } =
      Except.ok
        { player :=
            { tenSecondPlayer with volume := F64.fin (8106479329266893 / 9007199254740992) },
          quitClosed := false } ∧
    ∃ q : ℚ,
      ({ tenSecondPlayer with
          volume := F64.fin (8106479329266893 / 9007199254740992) } : Player).volume
        = F64.fin q ∧ 0 ≤ q ∧ q ≤ 1 := by
  have hrun : PlayerUI.handleEvents cvtZero [Event.key (Key.Rune '-')]
        { player := tenSecondPlayer, quitClosed := false } =
      Except.ok
        { player :=
            { tenSecondPlayer with volume := F64.fin (8106479329266893 / 9007199254740992) },
          quitClosed := false } := by
    have hv : tenSecondPlayer.volume = F64.fin 1 := by rw [tenSecondPlayer_eq]; rfl
    have hc1 : ¬ ('-' = ' ') := by decide
    have hc2 : ¬ ('-' = 's') := by decide
    have hc3 : ¬ ('-' = '+') := by decide
    have hset := SetVolume_id tenSecondPlayer (8106479329266893 / 9007199254740992)
      (by norm_num) (by norm_num)
    simp only [PlayerUI.handleEvents, PlayerUI.handleKeyEvent, hc1, hc2, hc3, if_false, if_true,
      Bool.false_eq_true, hv, volume_down, hset]
  exact ⟨C4_volume_clamped.1 tenSecondPlayer (17 / 10), hrun,
    C4_volume_clamped.2.2 Env.wf cvtZero _ { player := tenSecondPlayer, quitClosed := false } _
      (Reachable_tenSecondPlayer cvtZero) hrun⟩

/-- C6: on a player with nothing loaded (`streamer` and `ctrl` both nil), `Play`,
`Pause`, `Stop` and `Seek(t)` return without panic and leave the player as it
is, and `GetPosition` returns 0. -/
theorem C6_nothing_loaded_noop (cvt : F64 → Int) (p : Player) (t : F64)
    (hs : p.streamer = none) (hc : p.ctrl = none) :
    p.Play = p ∧ p.Pause = p ∧ p.Stop = Except.ok p ∧ p.Seek cvt t = p ∧
    p.GetPosition = F64.fin 0 := by
  simp [Player.Play, Player.Pause, Player.Stop, Player.Seek, Player.GetPosition, hs, hc]

/-- Witness of C6: the player returned by `NewPlayer`, `Seek(-2)`. -/
theorem C6_nothing_loaded_noop_witness :
    NewPlayer.streamer = none ∧ NewPlayer.ctrl = none ∧
    NewPlayer.Play = NewPlayer ∧ NewPlayer.Pause = NewPlayer ∧
    NewPlayer.Stop = Except.ok NewPlayer ∧ NewPlayer.Seek cvtZero (F64.fin (-2)) = NewPlayer ∧
    NewPlayer.GetPosition = F64.fin 0 :=
  ⟨rfl, rfl, C6_nothing_loaded_noop cvtZero NewPlayer (F64.fin (-2)) rfl rfl⟩

/-- C7: when the file opens and its lower-cased extension is neither `.mp3` nor
`.wav`, `LoadFile` on a player with nothing loaded returns the unsupported
format error and leaves every field of the player as it was. -/
theorem C7_unsupported_format (env : Env) (path : String) (p : Player)
    (hs : p.streamer = none) (hopen : env.osOpen = true)
    (hmp3 : ToLower (Ext path) ≠ ".mp3") (hwav : ToLower (Ext path) ≠ ".wav") :
    p.LoadFile env path = (some (LoadError.unsupportedFormat (Ext path)), p) := by
  simp [Player.LoadFile, Player.closeStreamer, hs, hopen, hmp3, hwav]

/-- Witness of C7: `music/a.b/song.FLAC` on the player returned by `NewPlayer`. -/
theorem C7_unsupported_format_witness :
    NewPlayer.LoadFile tenSecondEnv "music/a.b/song.FLAC" =
      (some (LoadError.unsupportedFormat ".FLAC"), NewPlayer) ∧
    (NewPlayer.LoadFile tenSecondEnv "music/a.b/song.FLAC").2.streamer = none ∧
    (NewPlayer.LoadFile tenSecondEnv "music/a.b/song.FLAC").2.ctrl = none := by
  have h := C7_unsupported_format tenSecondEnv "music/a.b/song.FLAC" NewPlayer rfl rfl
    (by decide) (by decide)
  have hext : Ext "music/a.b/song.FLAC" = ".FLAC" := by decide
  rw [hext] at h
  exact ⟨h, by rw [h]; rfl, by rw [h]; rfl⟩

/-- C8: for every sequence of events fed to `handleEvents` from any state, no
`close` is ever applied to a closed `quit`; with `quit` closed no event is
handled; and once an Escape or Ctrl-C key has followed the events `evs`, the
result is the state after `evs` with `quit` closed, whatever events come
later. -/
theorem C8_quit_closed_once (cvt : F64 → Int) (evs : List Event) (ui : PlayerUI) :
    PlayerUI.handleEvents cvt evs ui ≠ Except.error Panic.closeOfClosedChannel ∧
    (ui.quitClosed = true → PlayerUI.handleEvents cvt evs ui = Except.ok ui) ∧
    (∀ (k : Key) (post : List Event) (ui1 : PlayerUI), (k = Key.Escape ∨ k = Key.CtrlC) →
      PlayerUI.handleEvents cvt evs ui = Except.ok ui1 →
      PlayerUI.handleEvents cvt (evs ++ Event.key k :: post) ui =
        Except.ok { ui1 with quitClosed := true }) := by
  refine ⟨handleEvents_no_double_close cvt evs ui, handleEvents_closed cvt evs ui, ?_⟩
  intro k post ui1 hk h1
  rw [handleEvents_append, h1]
  exact handleEvents_quit_key cvt k hk post ui1

/-- Witness of C8: space, Escape, then `s`, Escape, Ctrl-C and `+`: the player is
left playing as the first Escape found it. -/
theorem C8_quit_closed_once_witness :
    PlayerUI.handleEvents cvtZero
        ([Event.key (Key.Rune ' ')] ++ Event.key Key.Escape ::
          [Event.key (Key.Rune 's'), Event.key Key.Escape, Event.key Key.CtrlC,
            Event.key (Key.Rune '+')])
        { player := tenSecondPlayer, quitClosed := false } =
      Except.ok { player := tenSecondPlayer.Play, quitClosed := true } := by
  have h1 : PlayerUI.handleEvents cvtZero [Event.key (Key.Rune ' ')]
      { player := tenSecondPlayer, quitClosed := false } =
      Except.ok { player := tenSecondPlayer.Play, quitClosed := false } := by
    simp [PlayerUI.handleEvents, PlayerUI.handleKeyEvent, tenSecondPlayer_eq, NewPlayer]
  exact (C8_quit_closed_once cvtZero _ _).2.2 Key.Escape _ _ (Or.inl rfl) h1

/-- C9: in every reachable state with a file loaded, `isPlaying` is the negation
of `ctrl.Paused`, so the status drawn by `render` is `Paused` exactly when
`ctrl.Paused` is true and `Playing` exactly when it is false; and a successful
`LoadFile` leaves `ctrl.Paused` true. -/
theorem C9_status_from_paused (dec : Env → Prop) (cvt : F64 → Int) (p : Player)
    (h : Reachable dec cvt p) :
    (p.streamer ≠ none →
      ∃ c, p.ctrl = some c ∧ p.isPlaying = (!c.Paused) ∧
        (playbackStatus p.isPlaying = "Paused" ↔ c.Paused = true) ∧
        (playbackStatus p.isPlaying = "Playing" ↔ c.Paused = false)) ∧
    (∀ (env : Env) (path : String), (p.LoadFile env path).1 = none →
      ∃ c, (p.LoadFile env path).2.ctrl = some c ∧ c.Paused = true ∧
        playbackStatus (p.LoadFile env path).2.isPlaying = "Paused") := by
  have hinv := Inv_of_Reachable h
  constructor
  · intro hs
    cases hc : p.ctrl with
    | none => exact absurd (hinv.nil_iff.mp hc) hs
    | some c =>
        have hst := hinv.status c hc
        refine ⟨c, rfl, hst, ?_, ?_⟩
        · rw [hst]; cases c.Paused <;> simp [playbackStatus]
        · rw [hst]; cases c.Paused <;> simp [playbackStatus]
  · intro env path hok
    rcases LoadFile_cases env path p with ⟨e, he⟩ | ⟨s, f, -, hl⟩
    · rw [he] at hok; simp at hok
    · rw [hl]
      exact ⟨{ Paused := true }, rfl, rfl, by simp [Player.install, playbackStatus]⟩

/-- Witness of C9: the playing 10-second stream shows `Playing`. -/
theorem C9_status_from_paused_witness :
    Reachable Env.wf cvtZero playingPlayer ∧
    playbackStatus playingPlayer.isPlaying = "Playing" ∧
    ((playingPlayer.streamer ≠ none →
      ∃ c, playingPlayer.ctrl = some c ∧ playingPlayer.isPlaying = (!c.Paused) ∧
        (playbackStatus playingPlayer.isPlaying = "Paused" ↔ c.Paused = true) ∧
        (playbackStatus playingPlayer.isPlaying = "Playing" ↔ c.Paused = false)) ∧
    (∀ (env : Env) (path : String), (playingPlayer.LoadFile env path).1 = none →
      ∃ c, (playingPlayer.LoadFile env path).2.ctrl = some c ∧ c.Paused = true ∧
        playbackStatus (playingPlayer.LoadFile env path).2.isPlaying = "Paused")) := by
  refine ⟨Reachable_playingPlayer cvtZero, ?_,
    C9_status_from_paused Env.wf cvtZero playingPlayer (Reachable_playingPlayer cvtZero)⟩
  simp [playingPlayer_isPlaying, playbackStatus]

/-- C10: in every state reachable from `NewPlayer` through `LoadFile`
(successful or failing), `Play`, `Pause`, `Stop`, `Seek`, `SetVolume`, key
events and playback, `ctrl` is nil exactly when `streamer` is nil, and `Stop`
does not dereference a nil `ctrl`. -/
theorem C10_ctrl_nil_iff_streamer_nil (dec : Env → Prop) (cvt : F64 → Int) (p : Player)
    (h : Reachable dec cvt p) :
    (p.ctrl = none ↔ p.streamer = none) ∧ p.Stop ≠ Except.error Panic.nilDereference := by
  refine ⟨(Inv_of_Reachable h).nil_iff, ?_⟩
  obtain ⟨q, hq⟩ := Stop_ok_of_Inv (Inv_of_Reachable h)
  rw [hq]
  simp

/-- Witness of C10: a load that fails on the extension after a successful one;
the first stream is closed and still referenced, as is its `ctrl`. -/
theorem C10_ctrl_nil_iff_streamer_nil_witness :
    (tenSecondPlayer.LoadFile tenSecondEnv "next.flac").1 =
      some (LoadError.unsupportedFormat ".flac") ∧
    (tenSecondPlayer.LoadFile tenSecondEnv "next.flac").2.streamer =
      some { tenSecondStream with closed := true } ∧
    (((tenSecondPlayer.LoadFile tenSecondEnv "next.flac").2.ctrl = none ↔
        (tenSecondPlayer.LoadFile tenSecondEnv "next.flac").2.streamer = none) ∧
      (tenSecondPlayer.LoadFile tenSecondEnv "next.flac").2.Stop ≠
        Except.error Panic.nilDereference) := by
  have hext1 : Ext "next.flac" = ".flac" := by decide
  have hmp3 : ToLower ".flac" ≠ ".mp3" := by decide
  have hwav : ToLower ".flac" ≠ ".wav" := by decide
  refine ⟨?_, ?_, C10_ctrl_nil_iff_streamer_nil (fun _ => True) cvtZero _
    (Reachable.loadFile tenSecondEnv "next.flac"
      (Reachable_mono (fun _ _ => trivial) (Reachable_tenSecondPlayer cvtZero)) trivial)⟩
  · simp [Player.LoadFile, hext1, hmp3, hwav, tenSecondEnv]
  · simp [Player.LoadFile, hext1, hmp3, hwav, tenSecondEnv, tenSecondPlayer_eq, Player.closeStreamer,
      NewPlayer, Stream.Close]


end AudioPlayer
